import Mathlib

/-!
Verification of libdw (Dish Washer RFI cleaning library): a shallow
embedding of `src/libdw/src/lib.c` together with proofs of the behavioural
properties stated in the specification.

Modelling conventions:
* `dw_struct` mirrors the C struct of `libdw.h`.  The `data` pointer is an
  opaque reference value (the detectors never dereference it), machine
  `int` fields are `Int`, the `char **flag_data` registry is a list of
  optional flag matrices (a slot is `none` when unset), and a flag matrix
  (`char *`) is a flat row-major `List Int`.
* `malloc` returns uninitialized storage, so `dw_alloc_flag_out` takes the
  indeterminate contents of the freshly allocated slot array as an explicit
  `junk` parameter: any value of that parameter is a possible C behaviour.
* `rand()` is modelled by an explicit stream `rand : Nat → Nat` of the
  successive nonnegative values returned by the C library.
* Reads or writes that are undefined behaviour in C (out-of-range slot
  index, dereferencing an unset slot) are modelled as no-ops; every theorem
  below constrains its inputs so that no such access occurs.
-/

namespace Libdw

/-- Shallow embedding of the C `dw_struct` from `libdw.h`. -/
structure dw_struct where
  data : Nat
  rows : Int
  cols : Int
  flag_data : List (Option (List Int))
  l_flag : Int
  flag_data_ind : List Int
  flag_product : List Int
  l_flag_prod : Int
deriving DecidableEq

/-- Sequence of `m[j] = 1` stores, one per index in `L`, in list order. -/
def writeOnes (m : List Int) (L : List Nat) : List Int :=
  L.foldl (fun m j => m.set j 1) m

/-- Apply `f` to the flag matrix held in slot `k` of the registry, storing
the result back in slot `k`.  A `none` (unset) slot models the C undefined
behaviour of writing through an indeterminate pointer as a no-op. -/
def writeSlot (fd : List (Option (List Int))) (k : Nat)
    (f : List Int → List Int) : List (Option (List Int)) :=
  match fd.getD k none with
  | some m => fd.set k (some (f m))
  | none => fd

/-- Row-major cell indices written by the inner `row` loop of
`dw_single_channel` / `dw_even_odd`: cells `(row, ch)` for `row < rows`. -/
def chanIdx (rows cols ch : Nat) : List Nat :=
  (List.range rows).map (fun row => row * cols + ch)

/-- Columns visited by `for (ii = parity; ii < cols; ii += 2)`. -/
def colList (cols parity : Nat) : List Nat :=
  (List.range cols).filter (fun ii => ii % 2 == parity)

/-- Cell indices written by one parity pass of `dw_even_odd`, in loop
order: outer loop over columns of the given parity, inner loop over rows. -/
def parityIdx (rows cols parity : Nat) : List Nat :=
  (colList cols parity).flatMap (fun ii => chanIdx rows cols ii)

/-- C `init_dw`: store the data pointer and the two dimensions, return 0. -/
def init_dw (s : dw_struct) (data : Nat) (rows cols : Int) : dw_struct × Int :=
  ({ s with data := data, rows := rows, cols := cols }, 0)

/-- C `dw_alloc_flag_out`: free the old slot array and `malloc` a new one of
`l_flag` entries.  `malloc` does not initialize the storage, so the
indeterminate contents of the new array are an explicit parameter `junk`
(constrained to length `l_flag` by the theorems): every choice of `junk` is
a behaviour the C standard permits for this code. -/
def dw_alloc_flag_out (s : dw_struct) (l_flag : Int)
    (junk : List (Option (List Int))) : dw_struct × Int :=
  ({ s with flag_data := junk, l_flag := l_flag }, 0)

/-- C `dw_set_flag_out`: reject `i_flag >= l_flag` with status `-1`,
otherwise store the matrix reference and return 0.  A negative `i_flag`
passes the check; the out-of-bounds store it performs in C is undefined
behaviour, modelled here as leaving the registry unchanged. -/
def dw_set_flag_out (s : dw_struct) (flag_data : List Int) (i_flag : Int) :
    dw_struct × Int :=
  if i_flag ≥ s.l_flag then (s, -1)
  else if 0 ≤ i_flag then
    ({ s with flag_data := s.flag_data.set i_flag.toNat (some flag_data) }, 0)
  else (s, 0)

/-- C `dw_set_flag_prod`: replace the product table with a copy of
`l_flag_prod` entries of the caller's `flag_product` and the label table
with a copy of `l_flag` entries of the caller's `flag_data_ind`.  Reads
past the end of a caller array are undefined behaviour in C; the `getD`
default is irrelevant under the theorems' length preconditions. -/
def dw_set_flag_prod (s : dw_struct) (flag_product : List Int)
    (l_flag_prod : Int) (flag_data_ind : List Int) : dw_struct × Int :=
  ({ s with
      flag_product :=
        (List.range l_flag_prod.toNat).map (fun ii => flag_product.getD ii 0),
      l_flag_prod := l_flag_prod,
      flag_data_ind :=
        (List.range s.l_flag.toNat).map (fun ii => flag_data_ind.getD ii 0) },
   0)

/-- C `dw_single_channel`: for every `row < rows` set cell
`row*cols + channel` of the matrix in registry slot 0 to 1.  A negative
`channel` is undefined behaviour in C (out-of-bounds store); theorems
require `0 ≤ channel`. -/
def dw_single_channel (s : dw_struct) (channel : Int) : dw_struct × Int :=
  ({ s with
      flag_data :=
        writeSlot s.flag_data 0
          (fun m => writeOnes m (chanIdx s.rows.toNat s.cols.toNat channel.toNat)) },
   0)

/-- C `dw_even_odd`: if `flag_product[0] > -1`, flag every even-indexed
column (product 0, "odd channels") in the matrix at slot
`flag_product[0]`; then, if `flag_product[1] > -1`, flag every odd-indexed
column in the matrix at slot `flag_product[1]`.  `channel_start` is unused,
as in the C source; the elapsed-time printout has no state effect. -/
def dw_even_odd (s : dw_struct) (channel_start : Float) : dw_struct × Int :=
  let fd1 :=
    if s.flag_product.getD 0 (-1) > -1 then
      writeSlot s.flag_data (s.flag_product.getD 0 (-1)).toNat
        (fun m => writeOnes m (parityIdx s.rows.toNat s.cols.toNat 0))
    else s.flag_data
  let fd2 :=
    if s.flag_product.getD 1 (-1) > -1 then
      writeSlot fd1 (s.flag_product.getD 1 (-1)).toNat
        (fun m => writeOnes m (parityIdx s.rows.toNat s.cols.toNat 1))
    else fd1
  ({ s with flag_data := fd2 }, 0)

/-- C `bootstrap_resample`: fill an output vector of `len_out` entries with
`rand() % len_in`.  Each C `rand()` call yields a nonnegative `int`; the
values stored into the `double` output array are exact small integers, so
the output is modelled as `List Int`.  `x_in` is never read by the C code. -/
def bootstrap_resample (x_in : List Float) (len_in : Int) (len_out : Int)
    (rand : Nat → Nat) : List Int × Int :=
  ((List.range len_out.toNat).map (fun ii => ((rand ii : Int)) % len_in), 0)

/-- Number of flagged (value 1) cells of a flag matrix. -/
def countFlagged (m : List Int) : Nat :=
  m.countP (fun x => x == 1)

theorem writeOnes_nil (m : List Int) : writeOnes m [] = m := rfl

theorem writeOnes_cons (m : List Int) (j : Nat) (L : List Nat) :
    writeOnes m (j :: L) = writeOnes (m.set j 1) L := rfl

theorem writeOnes_append (m : List Int) (L₁ L₂ : List Nat) :
    writeOnes m (L₁ ++ L₂) = writeOnes (writeOnes m L₁) L₂ := by
  unfold writeOnes
  exact List.foldl_append _ _ _ _

theorem length_writeOnes (L : List Nat) (m : List Int) :
    (writeOnes m L).length = m.length := by
  induction L generalizing m with
  | nil => rfl
  | cons j L ih => rw [writeOnes_cons, ih, List.length_set]

theorem getElem?_writeOnes (L : List Nat) (m : List Int) (i : Nat) :
    (writeOnes m L)[i]? =
      if i ∈ L ∧ i < m.length then some 1 else m[i]? := by
  induction L generalizing m with
  | nil => simp [writeOnes]
  | cons j L ih =>
    rw [writeOnes_cons, ih, List.length_set]
    by_cases hL : i ∈ L ∧ i < m.length
    · simp [hL, List.mem_cons, hL.1, hL.2]
    · rw [if_neg hL]
      by_cases hj : i = j
      · subst hj
        rw [List.getElem?_set_self']
        by_cases hlen : i < m.length
        · rw [if_pos ⟨List.mem_cons_self i L, hlen⟩,
            List.getElem?_eq_getElem hlen]
          rfl
        · rw [if_neg (fun h => hlen h.2),
            List.getElem?_eq_none (Nat.le_of_not_lt hlen)]
          rfl
      · rw [List.getElem?_set_ne (fun h => hj h.symm)]
        have : ¬(i ∈ j :: L ∧ i < m.length) := by
          intro h
          rcases List.mem_cons.1 h.1 with h' | h'
          · exact hj h'
          · exact hL ⟨h', h.2⟩
        rw [if_neg this]

theorem writeOnes_idem (m : List Int) (L : List Nat) :
    writeOnes (writeOnes m L) L = writeOnes m L := by
  apply List.ext_getElem?
  intro i
  rw [getElem?_writeOnes, getElem?_writeOnes, length_writeOnes]
  by_cases h : i ∈ L ∧ i < m.length
  · simp [h]
  · rw [if_neg h, if_neg h]

theorem writeOnes_preserves_one (m : List Int) (L : List Nat) (i : Nat)
    (h : m[i]? = some 1) : (writeOnes m L)[i]? = some 1 := by
  rw [getElem?_writeOnes]
  by_cases hc : i ∈ L ∧ i < m.length
  · rw [if_pos hc]
  · rw [if_neg hc]; exact h

theorem getD_set_ne (fd : List (Option (List Int))) (k k' : Nat)
    (a : Option (List Int)) (h : k ≠ k') :
    (fd.set k a).getD k' none = fd.getD k' none := by
  rw [List.getD_eq_getElem?_getD, List.getD_eq_getElem?_getD,
    List.getElem?_set_ne h]

theorem length_writeSlot (fd : List (Option (List Int))) (k : Nat)
    (f : List Int → List Int) : (writeSlot fd k f).length = fd.length := by
  unfold writeSlot
  split <;> simp

theorem lt_length_of_getD_eq_some (fd : List (Option (List Int))) (k : Nat)
    (m : List Int) (h : fd.getD k none = some m) : k < fd.length := by
  by_contra hk
  rw [List.getD_eq_getElem?_getD, List.getElem?_eq_none (Nat.le_of_not_lt hk)]
    at h
  exact Option.noConfusion h

theorem getElem?_writeSlot_ne (fd : List (Option (List Int))) (k : Nat)
    (f : List Int → List Int) (j : Nat) (h : j ≠ k) :
    (writeSlot fd k f)[j]? = fd[j]? := by
  unfold writeSlot
  split
  · exact List.getElem?_set_ne (fun h' => h h'.symm)
  · rfl

theorem getElem?_writeSlot_self (fd : List (Option (List Int))) (k : Nat)
    (f : List Int → List Int) (m : List Int)
    (h : fd.getD k none = some m) :
    (writeSlot fd k f)[k]? = some (some (f m)) := by
  unfold writeSlot
  rw [h]
  exact List.getElem?_set_self (lt_length_of_getD_eq_some fd k m h)

theorem writeSlot_of_getD_none (fd : List (Option (List Int))) (k : Nat)
    (f : List Int → List Int) (h : fd.getD k none = none) :
    writeSlot fd k f = fd := by
  unfold writeSlot
  rw [h]

theorem writeSlot_of_getD_some (fd : List (Option (List Int))) (k : Nat)
    (f : List Int → List Int) (m : List Int) (h : fd.getD k none = some m) :
    writeSlot fd k f = fd.set k (some (f m)) := by
  unfold writeSlot
  rw [h]

theorem getD_set_self (fd : List (Option (List Int))) (k : Nat)
    (m : List Int) (hlt : k < fd.length) :
    (fd.set k (some m)).getD k none = some m := by
  rw [List.getD_eq_getElem?_getD, List.getElem?_set_self (by simpa using hlt)]
  rfl

theorem writeSlot_writeSlot_same (fd : List (Option (List Int))) (k : Nat)
    (f g : List Int → List Int) :
    writeSlot (writeSlot fd k f) k g = writeSlot fd k (fun m => g (f m)) := by
  rcases hk : fd.getD k none with _ | m
  · rw [writeSlot_of_getD_none fd k f hk, writeSlot_of_getD_none fd k g hk,
      writeSlot_of_getD_none fd k _ hk]
  · have hlt : k < fd.length := lt_length_of_getD_eq_some fd k m hk
    have h2 : (fd.set k (some (f m))).getD k none = some (f m) :=
      getD_set_self fd k (f m) hlt
    rw [writeSlot_of_getD_some fd k f m hk,
      writeSlot_of_getD_some _ k g (f m) h2,
      writeSlot_of_getD_some fd k _ m hk, List.set_set]

theorem writeSlot_comm (fd : List (Option (List Int))) (k k' : Nat)
    (f g : List Int → List Int) (h : k ≠ k') :
    writeSlot (writeSlot fd k f) k' g = writeSlot (writeSlot fd k' g) k f := by
  rcases hk : fd.getD k none with _ | m <;>
    rcases hk' : fd.getD k' none with _ | m'
  · rw [writeSlot_of_getD_none fd k f hk, writeSlot_of_getD_none fd k' g hk',
      writeSlot_of_getD_none fd k f hk]
  · rw [writeSlot_of_getD_none fd k f hk,
      writeSlot_of_getD_some fd k' g m' hk',
      writeSlot_of_getD_none _ k f
        (by rw [getD_set_ne fd k' k _ (fun h' => h h'.symm)]; exact hk)]
  · rw [writeSlot_of_getD_some fd k f m hk,
      writeSlot_of_getD_none fd k' g hk',
      writeSlot_of_getD_none _ k' g
        (by rw [getD_set_ne fd k k' _ h]; exact hk'),
      writeSlot_of_getD_some fd k f m hk]
  · rw [writeSlot_of_getD_some fd k f m hk,
      writeSlot_of_getD_some fd k' g m' hk',
      writeSlot_of_getD_some _ k' g m'
        (by rw [getD_set_ne fd k k' _ h]; exact hk'),
      writeSlot_of_getD_some _ k f m
        (by rw [getD_set_ne fd k' k _ (fun h' => h h'.symm)]; exact hk),
      List.set_comm _ _ _ h]

theorem mem_chanIdx (rows cols ch j : Nat) :
    j ∈ chanIdx rows cols ch ↔ ∃ r, r < rows ∧ j = r * cols + ch := by
  simp only [chanIdx, List.mem_map, List.mem_range]
  constructor
  · rintro ⟨r, hr, rfl⟩; exact ⟨r, hr, rfl⟩
  · rintro ⟨r, hr, rfl⟩; exact ⟨r, hr, rfl⟩

theorem mem_colList (cols parity c : Nat) :
    c ∈ colList cols parity ↔ c < cols ∧ c % 2 = parity := by
  simp [colList, List.mem_filter, List.mem_range]

theorem mem_parityIdx (rows cols parity j : Nat) :
    j ∈ parityIdx rows cols parity ↔
      ∃ r c, r < rows ∧ c < cols ∧ c % 2 = parity ∧ j = r * cols + c := by
  simp only [parityIdx, List.mem_flatMap, mem_colList, mem_chanIdx]
  constructor
  · rintro ⟨c, ⟨hc, hpar⟩, r, hr, rfl⟩
    exact ⟨r, c, hr, hc, hpar, rfl⟩
  · rintro ⟨r, c, hr, hc, hpar, rfl⟩
    exact ⟨c, ⟨hc, hpar⟩, r, hr, rfl⟩

theorem rowcol_mod (r c cols : Nat) (hc : c < cols) :
    (r * cols + c) % cols = c := by
  rw [Nat.add_comm, Nat.add_mul_mod_self_right, Nat.mod_eq_of_lt hc]

theorem rowcol_lt (r c rows cols : Nat) (hr : r < rows) (hc : c < cols) :
    r * cols + c < rows * cols := by
  have h1 : (r + 1) * cols = r * cols + cols := Nat.succ_mul r cols
  have h2 : r * cols + c < (r + 1) * cols := by omega
  exact Nat.lt_of_lt_of_le h2 (Nat.mul_le_mul_right cols hr)

theorem mem_parityIdx_iff (rows cols parity j : Nat) (hcols : 0 < cols) :
    j ∈ parityIdx rows cols parity ↔
      j < rows * cols ∧ (j % cols) % 2 = parity := by
  rw [mem_parityIdx]
  constructor
  · rintro ⟨r, c, hr, hc, hpar, rfl⟩
    exact ⟨rowcol_lt r c rows cols hr hc, by rw [rowcol_mod r c cols hc]; exact hpar⟩
  · rintro ⟨hj, hpar⟩
    refine ⟨j / cols, j % cols, ?_, Nat.mod_lt j hcols, hpar, ?_⟩
    · exact Nat.div_lt_of_lt_mul ((Nat.mul_comm rows cols) ▸ hj)
    · have h3 : cols * (j / cols) + j % cols = j := Nat.div_add_mod j cols
      rw [Nat.mul_comm] at h3
      exact h3.symm

theorem nodup_chanIdx (rows cols ch : Nat) (hc : 0 < cols) :
    (chanIdx rows cols ch).Nodup := by
  apply List.Nodup.map
  · intro a b hab
    simp only at hab
    have : a * cols = b * cols := by omega
    exact Nat.eq_of_mul_eq_mul_right hc this
  · exact List.nodup_range rows

theorem nodup_parityIdx (rows cols parity : Nat) :
    (parityIdx rows cols parity).Nodup := by
  rcases Nat.eq_zero_or_pos cols with hc | hc
  · subst hc
    have : colList 0 parity = [] := by
      simp [colList, List.range_zero]
    simp [parityIdx, this]
  · apply List.nodup_flatMap.2
    refine ⟨fun c _ => nodup_chanIdx rows cols c hc, ?_⟩
    have hnd : (colList cols parity).Nodup :=
      (List.nodup_range cols).filter _
    apply hnd.imp_of_mem
    intro a b ha hb hne
    have hac : a < cols := ((mem_colList cols parity a).1 ha).1
    have hbc : b < cols := ((mem_colList cols parity b).1 hb).1
    intro j hja hjb
    rcases (mem_chanIdx rows cols a j).1 hja with ⟨r, _, rfl⟩
    rcases (mem_chanIdx rows cols b (r * cols + a)).1 hjb with ⟨r', _, heq⟩
    have h1 : (r * cols + a) % cols = a := rowcol_mod r a cols hac
    have h2 : (r' * cols + b) % cols = b := rowcol_mod r' b cols hbc
    rw [heq, h2] at h1
    exact hne h1.symm

theorem parityIdx_lt (rows cols parity j : Nat)
    (h : j ∈ parityIdx rows cols parity) : j < rows * cols := by
  rcases (mem_parityIdx rows cols parity j).1 h with ⟨r, c, hr, hc, _, rfl⟩
  exact rowcol_lt r c rows cols hr hc

theorem length_parityIdx (rows cols parity : Nat) :
    (parityIdx rows cols parity).length = (colList cols parity).length * rows := by
  unfold parityIdx
  induction colList cols parity with
  | nil => simp
  | cons c L ih =>
    rw [List.flatMap_cons, List.length_append, ih]
    simp [chanIdx, Nat.succ_mul, Nat.add_comm]

theorem length_colList_step (n p : Nat) :
    (colList (n + 1) p).length =
      (colList n p).length + (if n % 2 == p then 1 else 0) := by
  unfold colList
  rw [List.range_succ, List.filter_append, List.length_append]
  by_cases h : n % 2 == p <;> simp [List.filter_cons, h]

theorem length_colList (cols : Nat) :
    (colList cols 0).length = (cols + 1) / 2 ∧
      (colList cols 1).length = cols / 2 := by
  induction cols with
  | zero => simp [colList]
  | succ n ih =>
    obtain ⟨ih0, ih1⟩ := ih
    rw [length_colList_step, length_colList_step, ih0, ih1]
    have h2 : n % 2 = 0 ∨ n % 2 = 1 := Nat.mod_two_eq_zero_or_one n
    rcases h2 with h2 | h2 <;> simp [h2] <;> omega

theorem countFlagged_writeOnes_zero (n : Nat) (L : List Nat) (hN : L.Nodup)
    (hlt : ∀ j ∈ L, j < n) :
    countFlagged (writeOnes (List.replicate n (0 : Int)) L) = L.length := by
  have hmap : writeOnes (List.replicate n (0 : Int)) L =
      (List.range n).map (fun i => if i ∈ L then (1 : Int) else 0) := by
    apply List.ext_getElem?
    intro i
    rw [getElem?_writeOnes, List.length_replicate, List.getElem?_map]
    by_cases hi : i < n
    · rw [List.getElem?_range hi]
      by_cases hm : i ∈ L
      · simp [hm, hi]
      · simp [hm, hi, List.getElem?_replicate]
    · rw [List.getElem?_eq_none (by simpa using Nat.le_of_not_lt hi),
        if_neg (fun h => hi h.2),
        List.getElem?_eq_none (by simpa using Nat.le_of_not_lt hi)]
      rfl
  rw [hmap]
  unfold countFlagged
  rw [List.countP_map]
  have hcong : ∀ x ∈ List.range n,
      (((fun x => x == (1 : Int)) ∘ fun i => if i ∈ L then (1 : Int) else 0) x
          = true ↔
        decide (x ∈ L) = true) := by
    intro i _
    by_cases hm : i ∈ L <;> simp [hm]
  rw [List.countP_congr hcong, List.countP_eq_length_filter]
  have hperm : List.Perm ((List.range n).filter (fun i => decide (i ∈ L))) L := by
    rw [List.perm_ext_iff_of_nodup ((List.nodup_range n).filter _) hN]
    intro a
    simp only [List.mem_filter, List.mem_range, decide_eq_true_eq]
    exact ⟨fun h => h.2, fun h => ⟨hlt a h, h⟩⟩
  exact hperm.length_eq

/-- C8: `init_dw` stores exactly the three fields `data`, `rows`, `cols`
into the context and returns success (0) unconditionally; every other field
of the structure (`flag_data`, `l_flag`, `flag_data_ind`, `flag_product`,
`l_flag_prod`) is left unchanged by the call. -/
theorem init_dw_spec (s : dw_struct) (d : Nat) (rows cols : Int) :
    (init_dw s d rows cols).1.data = d ∧
    (init_dw s d rows cols).1.rows = rows ∧
    (init_dw s d rows cols).1.cols = cols ∧
    (init_dw s d rows cols).1.flag_data = s.flag_data ∧
    (init_dw s d rows cols).1.l_flag = s.l_flag ∧
    (init_dw s d rows cols).1.flag_data_ind = s.flag_data_ind ∧
    (init_dw s d rows cols).1.flag_product = s.flag_product ∧
    (init_dw s d rows cols).1.l_flag_prod = s.l_flag_prod ∧
    (init_dw s d rows cols).2 = 0 :=
  ⟨rfl, rfl, rfl, rfl, rfl, rfl, rfl, rfl, rfl⟩

/-- C3: `dw_set_flag_out` fails (status `-1`, the IndexOutOfRange error)
if and only if `i_flag ≥ l_flag`; on that failure the whole structure is
left unmodified; and for every `i_flag < l_flag`, including every negative
`i_flag` (the lower bound is unchecked in the C source), it returns
success (0). -/
theorem dw_set_flag_out_spec (s : dw_struct) (fm : List Int) (i_flag : Int) :
    ((dw_set_flag_out s fm i_flag).2 = -1 ↔ s.l_flag ≤ i_flag) ∧
    (s.l_flag ≤ i_flag → (dw_set_flag_out s fm i_flag).1 = s) ∧
    (i_flag < s.l_flag → (dw_set_flag_out s fm i_flag).2 = 0) := by
  unfold dw_set_flag_out
  split_ifs with h h0
  · exact ⟨⟨fun _ => h, fun _ => rfl⟩, fun _ => rfl,
      fun hlt => absurd h (not_le.2 hlt)⟩
  · exact ⟨⟨fun hc => absurd hc (by decide), fun hc => absurd hc h⟩,
      fun hc => absurd hc h, fun _ => rfl⟩
  · exact ⟨⟨fun hc => absurd hc (by decide), fun hc => absurd hc h⟩,
      fun hc => absurd hc h, fun _ => rfl⟩

/-- Witness for C3: with `l_flag = 2`, the negative index `-5` passes the
upper-bound check and the call reports success. -/
theorem dw_set_flag_out_spec_witness :
    (dw_set_flag_out ⟨0, 0, 0, [none, none], 2, [], [], 0⟩ [0] (-5)).2 = 0 :=
  (dw_set_flag_out_spec ⟨0, 0, 0, [none, none], 2, [], [], 0⟩ [0] (-5)).2.2
    (by decide)

/-- C2 (refuting evidence): `dw_alloc_flag_out` allocates the new slot
array with `malloc`, which does not initialize it.  A behaviour the C
standard permits — and the likely one, `malloc` returning the block just
freed with its previous contents intact — leaves the stale slot reference
of the prior registry readable in slot 0 after reallocation, so the slots
do not all read back as unset. -/
theorem dw_alloc_flag_out_stale_slot :
    ((dw_alloc_flag_out ⟨0, 0, 0, [some [1]], 1, [], [], 0⟩ 1
        [some [1]]).1.flag_data.getD 0 none) = some [1] ∧
    (dw_alloc_flag_out ⟨0, 0, 0, [some [1]], 1, [], [], 0⟩ 1
        [some [1]]).1.l_flag = 1 ∧
    (dw_alloc_flag_out ⟨0, 0, 0, [some [1]], 1, [], [], 0⟩ 1
        [some [1]]).1.flag_data.length = 1 :=
  ⟨rfl, rfl, rfl⟩

/-- C4: after `dw_set_flag_prod`, the product table is an element-for-element
copy of the caller's array up to `l_flag_prod`, `l_flag_prod` is updated,
and the label table is an element-for-element copy of the caller's
`flag_data_ind` up to the registry's current `l_flag` — the label-table
length is `l_flag`, independent of `l_flag_prod`; both arrays are copied in
full (their lengths are exactly `l_flag_prod` and `l_flag`). -/
theorem dw_set_flag_prod_spec (s : dw_struct) (fp : List Int) (lfp : Int)
    (ind : List Int)
    (hfp : lfp.toNat ≤ fp.length) (hind : s.l_flag.toNat ≤ ind.length) :
    (dw_set_flag_prod s fp lfp ind).1.flag_product.length = lfp.toNat ∧
    (∀ p : Nat, p < lfp.toNat →
      (dw_set_flag_prod s fp lfp ind).1.flag_product[p]? = fp[p]?) ∧
    (dw_set_flag_prod s fp lfp ind).1.l_flag_prod = lfp ∧
    (dw_set_flag_prod s fp lfp ind).1.flag_data_ind.length = s.l_flag.toNat ∧
    (∀ i : Nat, i < s.l_flag.toNat →
      (dw_set_flag_prod s fp lfp ind).1.flag_data_ind[i]? = ind[i]?) := by
  refine ⟨by simp [dw_set_flag_prod], ?_, rfl, by simp [dw_set_flag_prod], ?_⟩
  · intro p hp
    have hplen : p < fp.length := lt_of_lt_of_le hp hfp
    simp only [dw_set_flag_prod]
    rw [List.getElem?_map, List.getElem?_range hp, Option.map_some',
      List.getD_eq_getElem fp 0 hplen, List.getElem?_eq_getElem hplen]
  · intro i hi
    have hilen : i < ind.length := lt_of_lt_of_le hi hind
    simp only [dw_set_flag_prod]
    rw [List.getElem?_map, List.getElem?_range hi, Option.map_some',
      List.getD_eq_getElem ind 0 hilen, List.getElem?_eq_getElem hilen]

/-- Witness for C4 at a concrete registry with `l_flag = 1`,
`l_flag_prod = 2`. -/
theorem dw_set_flag_prod_spec_witness :
    (dw_set_flag_prod ⟨0, 0, 0, [none], 1, [7], [9], 1⟩ [0, -1] 2
        [4]).1.flag_product.length = 2 ∧
    (dw_set_flag_prod ⟨0, 0, 0, [none], 1, [7], [9], 1⟩ [0, -1] 2
        [4]).1.flag_product[0]? = some 0 ∧
    (dw_set_flag_prod ⟨0, 0, 0, [none], 1, [7], [9], 1⟩ [0, -1] 2
        [4]).1.flag_product[1]? = some (-1) ∧
    (dw_set_flag_prod ⟨0, 0, 0, [none], 1, [7], [9], 1⟩ [0, -1] 2
        [4]).1.l_flag_prod = 2 ∧
    (dw_set_flag_prod ⟨0, 0, 0, [none], 1, [7], [9], 1⟩ [0, -1] 2
        [4]).1.flag_data_ind.length = 1 ∧
    (dw_set_flag_prod ⟨0, 0, 0, [none], 1, [7], [9], 1⟩ [0, -1] 2
        [4]).1.flag_data_ind[0]? = some 4 := by
  have h := dw_set_flag_prod_spec ⟨0, 0, 0, [none], 1, [7], [9], 1⟩ [0, -1] 2
    [4] (by decide) (by decide)
  exact ⟨h.1, h.2.1 0 (by decide), h.2.1 1 (by decide), h.2.2.1,
    h.2.2.2.1, h.2.2.2.2 0 (by decide)⟩

/-- C6: `bootstrap_resample` with `len_in > 0` and `len_out ≥ 0` produces
exactly `len_out` output values, each an integer in the half-open range
`[0, len_in)`, for every possible stream of `rand()` results. -/
theorem bootstrap_resample_spec (x_in : List Float) (len_in len_out : Int)
    (rand : Nat → Nat) (hin : 0 < len_in) (hout : 0 ≤ len_out) :
    ((bootstrap_resample x_in len_in len_out rand).1.length : Int) = len_out ∧
    ∀ v ∈ (bootstrap_resample x_in len_in len_out rand).1,
      0 ≤ v ∧ v < len_in := by
  constructor
  · simp [bootstrap_resample, Int.toNat_of_nonneg hout]
  · intro v hv
    simp only [bootstrap_resample, List.mem_map] at hv
    rcases hv with ⟨ii, _, rfl⟩
    exact ⟨Int.emod_nonneg _ (by omega), Int.emod_lt_of_pos _ hin⟩

/-- Witness for C6 at `len_in = 3`, `len_out = 2` and a concrete rand
stream. -/
theorem bootstrap_resample_spec_witness :
    (((bootstrap_resample [] 3 2 (fun n => n + 5)).1.length : Int) = 2) ∧
    (0 ≤ (5 : Int) % 3 ∧ (5 : Int) % 3 < 3) := by
  have h := bootstrap_resample_spec [] 3 2 (fun n => n + 5) (by decide)
    (by decide)
  exact ⟨h.1, h.2 ((5 : Int) % 3) (by decide)⟩

theorem dw_even_odd_flag_data (s : dw_struct) (c : Float) :
    (dw_even_odd s c).1.flag_data =
      (if s.flag_product.getD 1 (-1) > -1 then
        writeSlot
          (if s.flag_product.getD 0 (-1) > -1 then
            writeSlot s.flag_data (s.flag_product.getD 0 (-1)).toNat
              (fun m => writeOnes m (parityIdx s.rows.toNat s.cols.toNat 0))
          else s.flag_data)
          (s.flag_product.getD 1 (-1)).toNat
          (fun m => writeOnes m (parityIdx s.rows.toNat s.cols.toNat 1))
      else
        (if s.flag_product.getD 0 (-1) > -1 then
          writeSlot s.flag_data (s.flag_product.getD 0 (-1)).toNat
            (fun m => writeOnes m (parityIdx s.rows.toNat s.cols.toNat 0))
        else s.flag_data)) := rfl

theorem mem_chanIdx_iff (rows cols ch i : Nat) (hch : ch < cols)
    (hi : i < rows * cols) :
    i ∈ chanIdx rows cols ch ↔ i % cols = ch := by
  rw [mem_chanIdx]
  constructor
  · rintro ⟨r, _, rfl⟩
    exact rowcol_mod r ch cols hch
  · intro hmod
    refine ⟨i / cols, ?_, ?_⟩
    · exact Nat.div_lt_of_lt_mul ((Nat.mul_comm rows cols) ▸ hi)
    · have h3 : cols * (i / cols) + i % cols = i := Nat.div_add_mod i cols
      rw [Nat.mul_comm] at h3
      omega

/-- C9: `dw_single_channel` writes directly into registry slot 0,
bypassing the product indirection: with slot 0 holding a matrix of
`rows*cols` cells and `0 ≤ channel < cols`, slot 0 afterwards holds the
matrix with cell `(row, channel)` set to 1 for every `row < rows` and every
other cell unchanged, every other slot is untouched, and no hypothesis on
`flag_product` is needed. -/
theorem dw_single_channel_spec (s : dw_struct) (channel : Int) (m : List Int)
    (h0 : s.flag_data.getD 0 none = some m)
    (hm : m.length = s.rows.toNat * s.cols.toNat)
    (hch : 0 ≤ channel) (hlt : channel < s.cols) :
    (dw_single_channel s channel).1.flag_data[0]? =
      some (some (writeOnes m
        (chanIdx s.rows.toNat s.cols.toNat channel.toNat))) ∧
    (∀ j : Nat, j ≠ 0 →
      (dw_single_channel s channel).1.flag_data[j]? = s.flag_data[j]?) ∧
    (writeOnes m (chanIdx s.rows.toNat s.cols.toNat channel.toNat)).length
      = m.length ∧
    (∀ i : Nat, i < m.length →
      (writeOnes m (chanIdx s.rows.toNat s.cols.toNat channel.toNat))[i]? =
        if i % s.cols.toNat = channel.toNat then some 1 else m[i]?) := by
  have hchlt : channel.toNat < s.cols.toNat := by omega
  refine ⟨?_, ?_, length_writeOnes _ m, ?_⟩
  · exact getElem?_writeSlot_self s.flag_data 0 _ m h0
  · intro j hj
    exact getElem?_writeSlot_ne s.flag_data 0 _ j hj
  · intro i hi
    rw [getElem?_writeOnes]
    have hmem : i ∈ chanIdx s.rows.toNat s.cols.toNat channel.toNat ↔
        i % s.cols.toNat = channel.toNat :=
      mem_chanIdx_iff s.rows.toNat s.cols.toNat channel.toNat i hchlt
        (hm ▸ hi)
    by_cases hmod : i % s.cols.toNat = channel.toNat
    · rw [if_pos ⟨hmem.2 hmod, hi⟩, if_pos hmod]
    · rw [if_neg (fun hc => hmod (hmem.1 hc.1)), if_neg hmod]

/-- Witness for C9: a 2-row, 3-column context, channel 1; cell `(1, 1)`
(index 4) is flagged. -/
theorem dw_single_channel_spec_witness :
    (dw_single_channel ⟨0, 2, 3, [some (List.replicate 6 0)], 1, [], [], 0⟩
        1).1.flag_data[0]? =
      some (some (writeOnes (List.replicate 6 0) (chanIdx 2 3 1))) ∧
    (dw_single_channel ⟨0, 2, 3, [some (List.replicate 6 0)], 1, [], [], 0⟩
        1).1.flag_data[1]? =
      ([some (List.replicate 6 0)] : List (Option (List Int)))[1]? ∧
    (writeOnes (List.replicate 6 0) (chanIdx 2 3 1)).length = 6 ∧
    (writeOnes (List.replicate 6 0) (chanIdx 2 3 1))[4]? = some 1 := by
  have h := dw_single_channel_spec
    ⟨0, 2, 3, [some (List.replicate 6 0)], 1, [], [], 0⟩ 1
    (List.replicate 6 0) (by decide) (by decide) (by decide) (by decide)
  refine ⟨h.1, h.2.1 1 (by decide), h.2.2.1, ?_⟩
  exact h.2.2.2 4 (by decide)

/-- C5: when parity product `k` is deselected (`flag_product[k] = -1`),
`dw_even_odd` performs no write on behalf of that product: every registry
slot other than the destination of the other product (when that one is
active) holds exactly the same flag matrix before and after the call. -/
theorem dw_even_odd_inactive_frame (s : dw_struct) (c : Float) (k : Nat)
    (hk : k < 2) (hinact : s.flag_product.getD k (-1) = -1) (j : Nat)
    (hj : s.flag_product.getD (1 - k) (-1) > -1 →
      j ≠ (s.flag_product.getD (1 - k) (-1)).toNat) :
    (dw_even_odd s c).1.flag_data[j]? = s.flag_data[j]? := by
  have hk2 : k = 0 ∨ k = 1 := by omega
  rw [dw_even_odd_flag_data]
  rcases hk2 with rfl | rfl
  · have hin : ¬ (s.flag_product.getD 0 (-1) > -1) := by
      rw [hinact]; exact lt_irrefl (-1 : Int)
    rw [if_neg hin]
    by_cases h1 : s.flag_product.getD 1 (-1) > -1
    · rw [if_pos h1]
      exact getElem?_writeSlot_ne _ _ _ j (hj h1)
    · rw [if_neg h1]
  · have hin : ¬ (s.flag_product.getD 1 (-1) > -1) := by
      rw [hinact]; exact lt_irrefl (-1 : Int)
    rw [if_neg hin]
    by_cases h0 : s.flag_product.getD 0 (-1) > -1
    · rw [if_pos h0]
      exact getElem?_writeSlot_ne _ _ _ j (hj h0)
    · rw [if_neg h0]

/-- Witness for C5: product 0 deselected, product 1 targeting slot 1;
slot 0 of a two-slot registry is untouched. -/
theorem dw_even_odd_inactive_frame_witness :
    (dw_even_odd ⟨0, 1, 1, [some [0], some [0]], 2, [], [-1, 1], 2⟩
        0).1.flag_data[0]? =
      ([some [0], some [0]] : List (Option (List Int)))[0]? :=
  dw_even_odd_inactive_frame ⟨0, 1, 1, [some [0], some [0]], 2, [], [-1, 1], 2⟩
    0 0 (by decide) (by decide) 0 (fun _ => by decide)

theorem cellOne_writeSlot (fd : List (Option (List Int))) (k : Nat)
    (f : List Int → List Int)
    (hf : ∀ (mm : List Int) (i : Nat), mm[i]? = some 1 → (f mm)[i]? = some 1)
    (j i : Nat) (m : List Int) (hj : fd[j]? = some (some m))
    (hi : m[i]? = some 1) :
    ∃ m', (writeSlot fd k f)[j]? = some (some m') ∧ m'[i]? = some 1 := by
  by_cases hjk : j = k
  · subst hjk
    have hd : fd.getD j none = some m := by
      rw [List.getD_eq_getElem?_getD, hj]
      rfl
    exact ⟨f m, getElem?_writeSlot_self fd j f m hd, hf m i hi⟩
  · rw [getElem?_writeSlot_ne fd k f j hjk]
    exact ⟨m, hj, hi⟩

/-- C10: the detectors only ever add flags: a cell of any registry matrix
holding 1 before a `dw_even_odd` or a `dw_single_channel` call still holds
1 after it (nothing is ever cleared back to 0). -/
theorem dw_detectors_monotone (s : dw_struct) (c : Float) (ch : Int)
    (j i : Nat) (m : List Int)
    (hj : s.flag_data[j]? = some (some m)) (hi : m[i]? = some 1) :
    (∃ m', (dw_even_odd s c).1.flag_data[j]? = some (some m') ∧
      m'[i]? = some 1) ∧
    (∃ m', (dw_single_channel s ch).1.flag_data[j]? = some (some m') ∧
      m'[i]? = some 1) := by
  constructor
  · rw [dw_even_odd_flag_data]
    have hA : ∃ m',
        (if s.flag_product.getD 0 (-1) > -1 then
          writeSlot s.flag_data (s.flag_product.getD 0 (-1)).toNat
            (fun m => writeOnes m (parityIdx s.rows.toNat s.cols.toNat 0))
        else s.flag_data)[j]? = some (some m') ∧ m'[i]? = some 1 := by
      by_cases h0 : s.flag_product.getD 0 (-1) > -1
      · rw [if_pos h0]
        exact cellOne_writeSlot s.flag_data _ _
          (fun mm i h => writeOnes_preserves_one mm _ i h) j i m hj hi
      · rw [if_neg h0]
        exact ⟨m, hj, hi⟩
    by_cases h1 : s.flag_product.getD 1 (-1) > -1
    · rw [if_pos h1]
      obtain ⟨m1, hj1, hi1⟩ := hA
      exact cellOne_writeSlot _ _ _
        (fun mm i h => writeOnes_preserves_one mm _ i h) j i m1 hj1 hi1
    · rw [if_neg h1]
      exact hA
  · exact cellOne_writeSlot s.flag_data 0 _
      (fun mm i h => writeOnes_preserves_one mm _ i h) j i m hj hi

/-- Witness for C10: a one-cell matrix already flagged stays flagged
through both detectors. -/
theorem dw_detectors_monotone_witness :
    (∃ m', (dw_even_odd ⟨0, 1, 1, [some [1]], 1, [], [0, -1], 2⟩
        0).1.flag_data[0]? = some (some m') ∧ m'[0]? = some 1) ∧
    (∃ m', (dw_single_channel ⟨0, 1, 1, [some [1]], 1, [], [0, -1], 2⟩
        0).1.flag_data[0]? = some (some m') ∧ m'[0]? = some 1) :=
  dw_detectors_monotone ⟨0, 1, 1, [some [1]], 1, [], [0, -1], 2⟩ 0 0 0 0 [1]
    rfl rfl

theorem writeOnes_comp_idem (L : List Nat) :
    (fun m : List Int => writeOnes (writeOnes m L) L) =
      (fun m : List Int => writeOnes m L) := by
  funext m
  exact writeOnes_idem m L

theorem writeOnes_four (m : List Int) (L0 L1 : List Nat) :
    writeOnes (writeOnes (writeOnes (writeOnes m L0) L1) L0) L1 =
      writeOnes (writeOnes m L0) L1 := by
  rw [← writeOnes_append m L0 L1,
    ← writeOnes_append (writeOnes m (L0 ++ L1)) L0 L1]
  exact writeOnes_idem m (L0 ++ L1)

theorem writeSlot_writeOnes_idem (fd : List (Option (List Int))) (k : Nat)
    (L : List Nat) :
    writeSlot (writeSlot fd k (fun m => writeOnes m L)) k
        (fun m => writeOnes m L) =
      writeSlot fd k (fun m => writeOnes m L) := by
  rw [writeSlot_writeSlot_same]
  exact congrArg (writeSlot fd k) (writeOnes_comp_idem L)

/-- C7: invoking the same detector twice with identical inputs produces
flag matrices identical to those after the first invocation, for
`dw_even_odd` and for `dw_single_channel`.  This holds for every starting
registry, in particular for freshly zeroed destination matrices. -/
theorem dw_detectors_idempotent (s : dw_struct) (c : Float) (ch : Int) :
    (dw_even_odd (dw_even_odd s c).1 c).1.flag_data =
      (dw_even_odd s c).1.flag_data ∧
    (dw_single_channel (dw_single_channel s ch).1 ch).1.flag_data =
      (dw_single_channel s ch).1.flag_data := by
  have hfp : (dw_even_odd s c).1.flag_product = s.flag_product := rfl
  have hrows : (dw_even_odd s c).1.rows = s.rows := rfl
  have hcols : (dw_even_odd s c).1.cols = s.cols := rfl
  constructor
  · rw [dw_even_odd_flag_data (dw_even_odd s c).1 c, hfp, hrows, hcols,
      dw_even_odd_flag_data s c]
    by_cases h0 : s.flag_product.getD 0 (-1) > -1 <;>
      by_cases h1 : s.flag_product.getD 1 (-1) > -1
    · rw [if_pos h0, if_pos h1, if_pos h0, if_pos h1]
      by_cases hkk : (s.flag_product.getD 0 (-1)).toNat =
          (s.flag_product.getD 1 (-1)).toNat
      · rw [← hkk]
        rw [writeSlot_writeSlot_same, writeSlot_writeSlot_same,
          writeSlot_writeSlot_same, writeSlot_writeSlot_same]
        apply congrArg
        funext m
        exact writeOnes_four m _ _
      · rw [writeSlot_comm _ _ _ _ _ (fun h => hkk h.symm),
          writeSlot_writeSlot_same,
          writeSlot_writeOnes_idem]
        apply congrArg
        funext m
        exact writeOnes_idem m _
    · rw [if_pos h0, if_neg h1, if_pos h0, if_neg h1]
      exact writeSlot_writeOnes_idem s.flag_data _ _
    · rw [if_neg h0, if_pos h1, if_neg h0, if_pos h1]
      exact writeSlot_writeOnes_idem s.flag_data _ _
    · rw [if_neg h0, if_neg h1, if_neg h0, if_neg h1]
  · have hr : (dw_single_channel s ch).1.rows = s.rows := rfl
    have hc : (dw_single_channel s ch).1.cols = s.cols := rfl
    show writeSlot (writeSlot s.flag_data 0
        (fun m => writeOnes m
          (chanIdx s.rows.toNat s.cols.toNat ch.toNat))) 0
        (fun m => writeOnes m
          (chanIdx s.rows.toNat s.cols.toNat ch.toNat)) =
      writeSlot s.flag_data 0
        (fun m => writeOnes m (chanIdx s.rows.toNat s.cols.toNat ch.toNat))
    exact writeSlot_writeOnes_idem s.flag_data 0 _

theorem mem_of_writeOnes_zero_one (n : Nat) (L : List Nat) (i : Nat)
    (h : (writeOnes (List.replicate n (0 : Int)) L)[i]? = some 1) :
    i ∈ L := by
  rw [getElem?_writeOnes] at h
  by_cases hc : i ∈ L ∧ i < (List.replicate n (0 : Int)).length
  · exact hc.1
  · rw [if_neg hc, List.getElem?_replicate] at h
    by_cases hi : i < n
    · rw [if_pos hi] at h
      exact absurd h (by decide)
    · rw [if_neg hi] at h
      exact absurd h (by decide)

/-- C1: with both parity products active and targeting distinct slots whose
matrices start all-zero, `dw_even_odd` leaves in the odd-channel product's
slot a matrix with exactly `⌈cols/2⌉ * rows` flagged cells (the
even-indexed columns 0, 2, 4, ...) and in the even-channel product's slot a
matrix with exactly `⌊cols/2⌋ * rows` flagged cells (columns 1, 3, 5, ...),
and no cell position is flagged in both matrices. -/
theorem dw_even_odd_parity_counts (s : dw_struct) (c : Float) (p0 p1 : Nat)
    (hrows : 0 ≤ s.rows) (hcols : 0 ≤ s.cols)
    (hp0 : s.flag_product.getD 0 (-1) = (p0 : Int))
    (hp1 : s.flag_product.getD 1 (-1) = (p1 : Int))
    (hne : p0 ≠ p1)
    (h0 : s.flag_data.getD p0 none =
      some (List.replicate (s.rows.toNat * s.cols.toNat) 0))
    (h1 : s.flag_data.getD p1 none =
      some (List.replicate (s.rows.toNat * s.cols.toNat) 0)) :
    (dw_even_odd s c).1.flag_data[p0]? =
      some (some (writeOnes (List.replicate (s.rows.toNat * s.cols.toNat) 0)
        (parityIdx s.rows.toNat s.cols.toNat 0))) ∧
    (dw_even_odd s c).1.flag_data[p1]? =
      some (some (writeOnes (List.replicate (s.rows.toNat * s.cols.toNat) 0)
        (parityIdx s.rows.toNat s.cols.toNat 1))) ∧
    countFlagged (writeOnes (List.replicate (s.rows.toNat * s.cols.toNat) 0)
        (parityIdx s.rows.toNat s.cols.toNat 0)) =
      (s.cols.toNat + 1) / 2 * s.rows.toNat ∧
    countFlagged (writeOnes (List.replicate (s.rows.toNat * s.cols.toNat) 0)
        (parityIdx s.rows.toNat s.cols.toNat 1)) =
      s.cols.toNat / 2 * s.rows.toNat ∧
    (∀ i : Nat,
      ¬((writeOnes (List.replicate (s.rows.toNat * s.cols.toNat) 0)
          (parityIdx s.rows.toNat s.cols.toNat 0))[i]? = some 1 ∧
        (writeOnes (List.replicate (s.rows.toNat * s.cols.toNat) 0)
          (parityIdx s.rows.toNat s.cols.toNat 1))[i]? = some 1)) := by
  have hc0 : s.flag_product.getD 0 (-1) > -1 := by
    rw [hp0]; omega
  have hc1 : s.flag_product.getD 1 (-1) > -1 := by
    rw [hp1]; omega
  have ht0 : (s.flag_product.getD 0 (-1)).toNat = p0 := by
    rw [hp0]; exact Int.toNat_ofNat p0
  have ht1 : (s.flag_product.getD 1 (-1)).toNat = p1 := by
    rw [hp1]; exact Int.toNat_ofNat p1
  have hp0len : p0 < s.flag_data.length :=
    lt_length_of_getD_eq_some _ _ _ h0
  have e0 : writeSlot s.flag_data p0
      (fun m => writeOnes m (parityIdx s.rows.toNat s.cols.toNat 0)) =
      s.flag_data.set p0
        (some (writeOnes (List.replicate (s.rows.toNat * s.cols.toNat) 0)
          (parityIdx s.rows.toNat s.cols.toNat 0))) :=
    writeSlot_of_getD_some _ _ _ _ h0
  have hget1 : (s.flag_data.set p0
      (some (writeOnes (List.replicate (s.rows.toNat * s.cols.toNat) 0)
        (parityIdx s.rows.toNat s.cols.toNat 0)))).getD p1 none =
      some (List.replicate (s.rows.toNat * s.cols.toNat) 0) := by
    rw [getD_set_ne _ p0 p1 _ hne]
    exact h1
  have hp1len : p1 < s.flag_data.length :=
    lt_length_of_getD_eq_some _ _ _ h1
  have e1 : writeSlot (s.flag_data.set p0
      (some (writeOnes (List.replicate (s.rows.toNat * s.cols.toNat) 0)
        (parityIdx s.rows.toNat s.cols.toNat 0)))) p1
      (fun m => writeOnes m (parityIdx s.rows.toNat s.cols.toNat 1)) =
      (s.flag_data.set p0
        (some (writeOnes (List.replicate (s.rows.toNat * s.cols.toNat) 0)
          (parityIdx s.rows.toNat s.cols.toNat 0)))).set p1
        (some (writeOnes (List.replicate (s.rows.toNat * s.cols.toNat) 0)
          (parityIdx s.rows.toNat s.cols.toNat 1))) :=
    writeSlot_of_getD_some _ _ _ _ hget1
  refine ⟨?_, ?_, ?_, ?_, ?_⟩
  · rw [dw_even_odd_flag_data, if_pos hc1, if_pos hc0, ht0, ht1, e0, e1,
      List.getElem?_set_ne (fun h => hne h.symm)]
    exact List.getElem?_set_self hp0len
  · rw [dw_even_odd_flag_data, if_pos hc1, if_pos hc0, ht0, ht1, e0, e1]
    exact List.getElem?_set_self (by rw [List.length_set]; exact hp1len)
  · rw [countFlagged_writeOnes_zero _ _ (nodup_parityIdx _ _ 0)
      (fun j hj => parityIdx_lt _ _ 0 j hj), length_parityIdx,
      (length_colList s.cols.toNat).1]
  · rw [countFlagged_writeOnes_zero _ _ (nodup_parityIdx _ _ 1)
      (fun j hj => parityIdx_lt _ _ 1 j hj), length_parityIdx,
      (length_colList s.cols.toNat).2]
  · intro i hcontra
    obtain ⟨hA, hB⟩ := hcontra
    have hm0 := mem_of_writeOnes_zero_one _ _ i hA
    have hm1 := mem_of_writeOnes_zero_one _ _ i hB
    rcases (mem_parityIdx _ _ 0 i).1 hm0 with ⟨r, cc, hr, hcc, hpar0, hi0⟩
    rcases (mem_parityIdx _ _ 1 i).1 hm1 with ⟨r2, cc2, hr2, hcc2, hpar1, hi1⟩
    have q1 : i % s.cols.toNat = cc := by
      rw [hi0]; exact rowcol_mod r cc _ hcc
    have q2 : i % s.cols.toNat = cc2 := by
      rw [hi1]; exact rowcol_mod r2 cc2 _ hcc2
    omega

/-- Witness for C1: a 2-row, 3-column spectrogram with products 0 and 1
targeting slots 0 and 1; the odd-channel product flags 4 cells and the
even-channel product flags 2. -/
theorem dw_even_odd_parity_counts_witness :
    (dw_even_odd ⟨0, 2, 3,
        [some (List.replicate 6 0), some (List.replicate 6 0)],
        2, [], [0, 1], 2⟩ 0).1.flag_data[0]? =
      some (some (writeOnes (List.replicate 6 0) (parityIdx 2 3 0))) ∧
    (dw_even_odd ⟨0, 2, 3,
        [some (List.replicate 6 0), some (List.replicate 6 0)],
        2, [], [0, 1], 2⟩ 0).1.flag_data[1]? =
      some (some (writeOnes (List.replicate 6 0) (parityIdx 2 3 1))) ∧
    countFlagged (writeOnes (List.replicate 6 0) (parityIdx 2 3 0)) = 4 ∧
    countFlagged (writeOnes (List.replicate 6 0) (parityIdx 2 3 1)) = 2 := by
  have h := dw_even_odd_parity_counts
    ⟨0, 2, 3, [some (List.replicate 6 0), some (List.replicate 6 0)],
      2, [], [0, 1], 2⟩ 0 0 1
    (by decide) (by decide) (by decide) (by decide) (by decide) (by decide)
    (by decide)
  exact ⟨h.1, h.2.1, h.2.2.1, h.2.2.2.1⟩

end Libdw
